import Mathlib

/-!
Verification of the discovery-and-linking core of `uenv_venv/cli.py`.

The code is embedded shallowly: filesystem queries (`Path.resolve`,
`Path.is_dir`, `Path.exists`) become fields of an abstract `FS` record,
where `resolve` may fail (Python `OSError` during resolution is modelled
as `Except.error`); subprocess outcomes become fields of a `World`
record; `sys.exit` becomes an explicit `Outcome`; filesystem mutations
are collected in an event log.
-/

/-- Abstract filesystem: `resolve` models `Path.resolve()` (which may
raise, modelled as `Except.error`), `isDir` models `Path.is_dir()`,
`pathExists` models `Path.exists()`. -/
structure FS where
  resolve : String → Except Unit String
  isDir : String → Bool
  pathExists : String → Bool

/-- `listBegins pat l` is true iff `pat` is an initial segment of `l`;
this is the character-level meaning of the Python `str.startswith` call. -/
def listBegins : List Char → List Char → Bool
  | [], _ => true
  | _ :: _, [] => false
  | p :: ps, c :: cs => p = c && listBegins ps cs

/-- `strBegins s pat` models Python `s.startswith(pat)`. -/
def strBegins (s pat : String) : Bool :=
  listBegins pat.data s.data

/-- The body of `py_in_uenv` before the `except` clause:
`Path(py).resolve().as_posix().startswith(Path(mount).resolve().as_posix() + "/")`. -/
def py_in_uenv_body (fs : FS) (py mount : String) : Except Unit Bool :=
  match fs.resolve py with
  | .error e => .error e
  | .ok rp =>
    match fs.resolve mount with
    | .error e => .error e
    | .ok rm => .ok (strBegins rp (rm ++ "/"))

/-- `py_in_uenv(py, mount)` from `cli.py`: the try/except wrapper that
returns `False` on any resolution error. -/
def py_in_uenv (fs : FS) (py mount : String) : Bool :=
  match py_in_uenv_body fs py mount with
  | .ok b => b
  | .error _ => false

theorem listBegins_iff (p : List Char) :
    ∀ s : List Char, listBegins p s = true ↔ ∃ t, s = p ++ t := by
  induction p with
  | nil =>
    intro s
    simp [listBegins]
  | cons a ps ih =>
    intro s
    cases s with
    | nil =>
      simp [listBegins]
    | cons c cs =>
      simp only [listBegins, Bool.and_eq_true, decide_eq_true_eq, ih cs]
      constructor
      · rintro ⟨rfl, t, rfl⟩
        exact ⟨t, rfl⟩
      · rintro ⟨t, h⟩
        cases h
        exact ⟨rfl, t, rfl⟩

theorem string_data_append (s t : String) : (s ++ t).data = s.data ++ t.data := rfl

theorem strBegins_iff (s pat : String) :
    strBegins s pat = true ↔ ∃ t : String, s = pat ++ t := by
  unfold strBegins
  rw [listBegins_iff]
  constructor
  · rintro ⟨t, ht⟩
    refine ⟨⟨t⟩, ?_⟩
    cases s with
    | mk d => cases ht; rfl
  · rintro ⟨t, rfl⟩
    exact ⟨t.data, rfl⟩

/-- Claim C1: `py_in_uenv` returns true iff the fully resolved
interpreter path string begins with the fully resolved mount path string
followed by the separator `/`; any resolution error yields `false`
(fail closed).  Totality of the Lean function models "never throws". -/
theorem py_in_uenv_correct (fs : FS) (py mount : String) :
    (py_in_uenv fs py mount = true ↔
      ∃ rp rm t, fs.resolve py = .ok rp ∧ fs.resolve mount = .ok rm ∧
        rp = (rm ++ "/") ++ t) ∧
    ((fs.resolve py = .error () ∨ fs.resolve mount = .error ()) →
      py_in_uenv fs py mount = false) := by
  constructor
  · unfold py_in_uenv py_in_uenv_body
    cases hp : fs.resolve py with
    | error e =>
      constructor
      · intro h
        exact Bool.noConfusion h
      · rintro ⟨rp, rm, t, hrp, hrm, rfl⟩
        exact Except.noConfusion hrp
    | ok rp =>
      cases hm : fs.resolve mount with
      | error e =>
        constructor
        · intro h
          exact Bool.noConfusion h
        · rintro ⟨rp', rm, t, hrp, hrm, rfl⟩
          exact Except.noConfusion hrm
      | ok rm =>
        constructor
        · intro h
          obtain ⟨t, ht⟩ := (strBegins_iff rp (rm ++ "/")).1 h
          exact ⟨rp, rm, t, rfl, rfl, ht⟩
        · rintro ⟨rp', rm', t, hrp, hrm, rfl⟩
          cases hrp
          cases hrm
          exact (strBegins_iff _ _).2 ⟨t, rfl⟩
  · intro h
    unfold py_in_uenv py_in_uenv_body
    rcases h with h | h
    · rw [h]
    · rw [h]
      cases hp : fs.resolve py <;> rfl

/-- A tiny concrete filesystem used by witnesses: `"bad"` fails to
resolve, everything else resolves to itself. -/
def fsW : FS where
  resolve := fun s => if s = "bad" then .error () else .ok s
  isDir := fun _ => true
  pathExists := fun _ => true

theorem py_in_uenv_correct_witness :
    py_in_uenv fsW "bad" "/base" = false :=
  (py_in_uenv_correct fsW "bad" "/base").2 (Or.inl rfl)

/-! ## Environment descriptor parser (`parse_uenv`) -/

/-- The Python `str.split(sep, maxsplit)` form specialised to `sep = ":"`,
working over the character list: `fuel` is the number of splits still
allowed, `cur` the (reversed) current field. -/
def splitColonAux : List Char → Nat → List Char → List (List Char)
  | [], _, cur => [cur.reverse]
  | c :: cs, fuel, cur =>
    if c = ':' ∧ fuel ≠ 0 then
      cur.reverse :: splitColonAux cs (fuel - 1) []
    else
      splitColonAux cs fuel (c :: cur)

/-- `s.split(":", maxsplit)` from Python. -/
def pySplitColon (s : String) (maxsplit : Nat) : List String :=
  (splitColonAux s.data maxsplit []).map String.mk

/-- Unbounded splitting at a character predicate, keeping empty fields;
this is the behaviour of both the Python `s.split(":")` call and
`re.split("[ ,]", s)` (a single-character class, no quantifier). -/
def splitOnPred (p : Char → Bool) : List Char → List Char → List (List Char)
  | [], cur => [cur.reverse]
  | c :: cs, cur =>
    if p c then cur.reverse :: splitOnPred p cs []
    else splitOnPred p cs (c :: cur)

/-- The colon-field decomposition of a string (unbounded split). -/
def colonFields (s : String) : List (List Char) :=
  splitOnPred (fun c => c = ':') s.data []

/-- The character class of `re.split("[ ,]", ...)`. -/
def scPred (c : Char) : Bool := c = ' ' || c = ','

/-- `re.split("[ ,]", s)` from `parse_uenv`. -/
def reSplitSpaceComma (s : String) : List String :=
  (splitOnPred scPred s.data []).map String.mk

/-- The whitespace set of Python `str.strip()` (ASCII part). -/
def isPyWs (c : Char) : Bool :=
  c = ' ' || c = '\t' || c = '\n' || c = '\r' || c = '\x0b' || c = '\x0c'

/-- Python `s.strip()`. -/
def pyStrip (s : String) : String :=
  ⟨((s.data.dropWhile isPyWs).reverse.dropWhile isPyWs).reverse⟩

/-- `":" in token` from Python. -/
def strContainsColon (s : String) : Bool :=
  s.data.contains ':'

/-- `token.rsplit(":", 1)[-1]`: the part after the last colon (the
whole string when there is no colon). -/
def afterLastColon (s : String) : String :=
  ⟨(s.data.reverse.takeWhile (fun c => c ≠ ':')).reverse⟩

/-- Result of `parse_uenv`: either a `(mount, name, view)` triple or
the `_err("ERROR: Could not detect uenv.")` exit. -/
inductive ParseResult where
  | ok (mount name view : String)
  | fatal
deriving DecidableEq

/-- The loop body of the `UENV_MOUNT_LIST` branch: the first token (of
the reversed token list) that is non-empty and contains a colon yields
the mount component. -/
def findMount : List String → Option String
  | [] => none
  | t :: ts =>
    if t ≠ "" ∧ strContainsColon t then some (afterLastColon t)
    else findMount ts

/-- The `UENV_MOUNT_LIST` fallback branch of `parse_uenv`. -/
def parseFromList (uml : String) : ParseResult :=
  if uml = "" then .fatal
  else
    match findMount (reSplitSpaceComma (pyStrip uml)).reverse with
    | some m => .ok m "" ""
    | none => .fatal

/-- `parse_uenv()` from `cli.py`, as a function of the two descriptor
variables `UENV_VIEW` and `UENV_MOUNT_LIST`. -/
def parse_uenv (uv uml : String) : ParseResult :=
  if uv ≠ "" then
    match pySplitColon uv 3 with
    | [m, n, v] => .ok m n v
    | _ => parseFromList uml
  else parseFromList uml

theorem mk_data (s : String) : String.mk s.data = s := rfl

theorem splitOnPred_length_pos (p : Char → Bool) :
    ∀ (l cur : List Char), 0 < (splitOnPred p l cur).length := by
  intro l
  induction l with
  | nil => intro cur; simp [splitOnPred]
  | cons c cs ih =>
    intro cur
    by_cases hc : p c
    · simp [splitOnPred, hc]
    · simp [splitOnPred, hc, ih]

theorem splitColonAux_length :
    ∀ (l : List Char) (fuel : Nat) (cur : List Char),
      (splitColonAux l fuel cur).length =
        min (splitOnPred (fun c => c = ':') l cur).length (fuel + 1) := by
  intro l
  induction l with
  | nil =>
    intro fuel cur
    simp [splitColonAux, splitOnPred]
  | cons c cs ih =>
    intro fuel cur
    by_cases hc : c = ':'
    · subst hc
      cases fuel with
      | zero =>
        have hpos := splitOnPred_length_pos (fun c => c = ':') cs (':' :: cur)
        have hpos2 := splitOnPred_length_pos (fun c => c = ':') cs []
        simp [splitColonAux, splitOnPred, ih]
        omega
      | succ k =>
        simp [splitColonAux, splitOnPred, ih]
        omega
    · simp [splitColonAux, splitOnPred, hc, ih]

theorem splitColonAux_append_sep :
    ∀ (l : List Char), (∀ c ∈ l, c ≠ ':') →
      ∀ (rest : List Char) (fuel : Nat) (cur : List Char),
        splitColonAux (l ++ ':' :: rest) (fuel + 1) cur =
          (cur.reverse ++ l) :: splitColonAux rest fuel [] := by
  intro l
  induction l with
  | nil =>
    intro _ rest fuel cur
    simp [splitColonAux]
  | cons a l ih =>
    intro h rest fuel cur
    have ha : a ≠ ':' := h a (by simp)
    have hstep : splitColonAux ((a :: l) ++ ':' :: rest) (fuel + 1) cur =
        splitColonAux (l ++ ':' :: rest) (fuel + 1) (a :: cur) := by
      simp [splitColonAux, ha]
    rw [hstep, ih (fun c hc => h c (by simp [hc])) rest fuel (a :: cur)]
    simp

theorem splitColonAux_no_sep :
    ∀ (l : List Char), (∀ c ∈ l, c ≠ ':') →
      ∀ (fuel : Nat) (cur : List Char),
        splitColonAux l fuel cur = [cur.reverse ++ l] := by
  intro l
  induction l with
  | nil => intro _ fuel cur; simp [splitColonAux]
  | cons a l ih =>
    intro h fuel cur
    have ha : a ≠ ':' := h a (by simp)
    simp only [splitColonAux, ha, false_and, if_false]
    rw [ih (fun c hc => h c (by simp [hc])) fuel (a :: cur)]
    simp

/-- `compositeMiss uv` says the composite `UENV_VIEW` branch of
`parse_uenv` does not return: the variable is empty or its value does
not have exactly three colon-separated fields. -/
def compositeMiss (uv : String) : Prop :=
  uv = "" ∨ (colonFields uv).length ≠ 3

theorem parse_uenv_fallthrough (uv uml : String) (h : compositeMiss uv) :
    parse_uenv uv uml = parseFromList uml := by
  by_cases huv : uv = ""
  · simp [parse_uenv, huv]
  · have hlen3 : (colonFields uv).length ≠ 3 := h.resolve_left huv
    have hlen : (pySplitColon uv 3).length ≠ 3 := by
      unfold pySplitColon
      rw [List.length_map, splitColonAux_length]
      unfold colonFields at hlen3
      omega
    unfold parse_uenv
    rw [if_pos huv]
    rcases hps : pySplitColon uv 3 with _ | ⟨a, _ | ⟨b, _ | ⟨c, _ | ⟨d, tl⟩⟩⟩⟩ <;>
      first
        | rfl
        | (exfalso; apply hlen; rw [hps]; rfl)

theorem colon_data : (":" : String).data = [':'] := rfl

/-- Claim C5: a composite descriptor `m:n:v` with exactly three
non-empty colon-free fields parses to `mount = m`, `name = n`,
`view = v`; any composite value that does not have exactly three
colon-fields makes `parse_uenv` fall through to the
`UENV_MOUNT_LIST` branch. -/
theorem parse_uenv_composite_correct :
    (∀ (m n v uml : String),
      m ≠ "" → n ≠ "" → v ≠ "" →
      (∀ c ∈ m.data, c ≠ ':') → (∀ c ∈ n.data, c ≠ ':') →
      (∀ c ∈ v.data, c ≠ ':') →
      parse_uenv (m ++ ":" ++ n ++ ":" ++ v) uml = .ok m n v) ∧
    (∀ (uv uml : String), (colonFields uv).length ≠ 3 →
      parse_uenv uv uml = parseFromList uml) := by
  constructor
  · intro m n v uml hm hn hv hmc hnc hvc
    have hdata : (m ++ ":" ++ n ++ ":" ++ v).data =
        m.data ++ ':' :: (n.data ++ ':' :: v.data) := by
      simp [string_data_append, colon_data]
    have hne : (m ++ ":" ++ n ++ ":" ++ v) ≠ "" := by
      intro h
      have h2 := congrArg String.data h
      rw [hdata] at h2
      simp at h2
    have hsplit : pySplitColon (m ++ ":" ++ n ++ ":" ++ v) 3 = [m, n, v] := by
      unfold pySplitColon
      rw [hdata]
      rw [show (3 : Nat) = 2 + 1 from rfl]
      rw [splitColonAux_append_sep m.data hmc (n.data ++ ':' :: v.data) 2 []]
      rw [show (2 : Nat) = 1 + 1 from rfl]
      rw [splitColonAux_append_sep n.data hnc v.data 1 []]
      rw [splitColonAux_no_sep v.data hvc 1 []]
      simp [mk_data]
    unfold parse_uenv
    rw [if_pos hne, hsplit]
  · intro uv uml h
    exact parse_uenv_fallthrough uv uml (Or.inr h)

theorem parse_uenv_composite_correct_witness :
    parse_uenv "/user-environment:prgenv-gnu:default" "" =
      .ok "/user-environment" "prgenv-gnu" "default" := by
  have h := parse_uenv_composite_correct.1 "/user-environment" "prgenv-gnu"
    "default" "" (by decide) (by decide) (by decide)
    (by decide) (by decide) (by decide)
  exact h

/-! ## The `UENV_MOUNT_LIST` branch on well-formed token lists -/

/-- A well-formed `image:mount` token: non-empty, contains a colon, no
separator or whitespace characters inside. -/
def goodTok (t : String) : Prop :=
  t.data ≠ [] ∧ strContainsColon t = true ∧
    ∀ c ∈ t.data, isPyWs c = false ∧ c ≠ ','

/-- A list-descriptor value: the given tokens joined by the single
separator character `sep` (a space or a comma). -/
def joinTokens (sep : Char) : List String → String
  | [] => ""
  | [t] => t
  | t :: ts => t ++ ⟨[sep]⟩ ++ joinTokens sep ts

theorem splitOnPred_no_sep (p : Char → Bool) :
    ∀ (l : List Char), (∀ c ∈ l, p c = false) →
      ∀ (cur : List Char), splitOnPred p l cur = [cur.reverse ++ l] := by
  intro l
  induction l with
  | nil => intro _ cur; simp [splitOnPred]
  | cons a l ih =>
    intro h cur
    have ha : p a = false := h a (by simp)
    simp only [splitOnPred, ha, Bool.false_eq_true, if_false]
    rw [ih (fun c hc => h c (by simp [hc])) (a :: cur)]
    simp

theorem splitOnPred_append_sep (p : Char → Bool) :
    ∀ (l : List Char), (∀ c ∈ l, p c = false) →
      ∀ (sep : Char), p sep = true →
        ∀ (rest cur : List Char),
          splitOnPred p (l ++ sep :: rest) cur =
            (cur.reverse ++ l) :: splitOnPred p rest [] := by
  intro l
  induction l with
  | nil =>
    intro _ sep hsep rest cur
    simp [splitOnPred, hsep]
  | cons a l ih =>
    intro h sep hsep rest cur
    have ha : p a = false := h a (by simp)
    have hstep : splitOnPred p ((a :: l) ++ sep :: rest) cur =
        splitOnPred p (l ++ sep :: rest) (a :: cur) := by
      simp [splitOnPred, ha]
    rw [hstep, ih (fun c hc => h c (by simp [hc])) sep hsep rest (a :: cur)]
    simp

theorem goodTok_scPred {t : String} (h : goodTok t) :
    ∀ c ∈ t.data, scPred c = false := by
  intro c hc
  obtain ⟨hws, hcm⟩ := h.2.2 c hc
  unfold scPred
  unfold isPyWs at hws
  simp only [Bool.or_eq_false_iff, decide_eq_false_iff_not] at hws ⊢
  exact ⟨hws.1.1.1.1.1, hcm⟩

theorem join_data_cons (sep : Char) (t t' : String) (ts : List String) :
    (joinTokens sep (t :: t' :: ts)).data =
      t.data ++ sep :: (joinTokens sep (t' :: ts)).data := by
  show (t ++ ⟨[sep]⟩ ++ joinTokens sep (t' :: ts)).data = _
  rw [string_data_append, string_data_append]
  simp

theorem join_ne_nil (sep : Char) :
    ∀ (ts : List String), ts ≠ [] → (∀ t ∈ ts, t.data ≠ []) →
      (joinTokens sep ts).data ≠ [] := by
  intro ts
  induction ts with
  | nil => intro h; exact absurd rfl h
  | cons t ts ih =>
    intro _ hall
    cases ts with
    | nil =>
      show t.data ≠ []
      exact hall t (by simp)
    | cons t' ts' =>
      rw [join_data_cons]
      intro h
      have := hall t (by simp)
      simp [List.append_eq_nil] at h

theorem split_join (sep : Char) (hsep : scPred sep = true) :
    ∀ (ts : List String), ts ≠ [] →
      (∀ t ∈ ts, ∀ c ∈ t.data, scPred c = false) →
      splitOnPred scPred (joinTokens sep ts).data [] = ts.map String.data := by
  intro ts
  induction ts with
  | nil => intro h; exact absurd rfl h
  | cons t ts ih =>
    intro _ hall
    cases ts with
    | nil =>
      show splitOnPred scPred t.data [] = [t.data]
      rw [splitOnPred_no_sep scPred t.data (hall t (by simp)) []]
      simp
    | cons t' ts' =>
      rw [join_data_cons]
      rw [splitOnPred_append_sep scPred t.data (hall t (by simp)) sep hsep]
      rw [ih (by simp) (fun u hu c hc => hall u (by simp [hu]) c hc)]
      simp

theorem dropWhile_eq_self_of_head (p : Char → Bool) (l : List Char)
    (h : ∀ c, l.head? = some c → p c = false) : l.dropWhile p = l := by
  cases l with
  | nil => rfl
  | cons a l =>
    have ha := h a rfl
    simp [List.dropWhile_cons, ha]

theorem pyStrip_eq_self (s : String)
    (h1 : ∀ c, s.data.head? = some c → isPyWs c = false)
    (h2 : ∀ c, s.data.getLast? = some c → isPyWs c = false) :
    pyStrip s = s := by
  unfold pyStrip
  rw [dropWhile_eq_self_of_head isPyWs s.data h1]
  rw [dropWhile_eq_self_of_head isPyWs s.data.reverse
    (fun c hc => h2 c (by rwa [List.head?_reverse] at hc))]
  rw [List.reverse_reverse]

theorem join_head (sep : Char) (t : String) (ts : List String)
    (ht : t.data ≠ []) :
    (joinTokens sep (t :: ts)).data.head? = t.data.head? := by
  cases ts with
  | nil => rfl
  | cons t' ts' =>
    rw [join_data_cons]
    cases hd : t.data with
    | nil => exact absurd hd ht
    | cons a l => simp

theorem join_getLast (sep : Char) :
    ∀ (ts : List String) (h : ts ≠ []), (∀ t ∈ ts, t.data ≠ []) →
      (joinTokens sep ts).data.getLast? = (ts.getLast h).data.getLast? := by
  intro ts
  induction ts with
  | nil => intro h; exact absurd rfl h
  | cons t ts ih =>
    intro _ hall
    cases ts with
    | nil => rfl
    | cons t' ts' =>
      rw [join_data_cons]
      rw [List.getLast?_append_of_ne_nil t.data (by simp)]
      have hjoin := join_ne_nil sep (t' :: ts') (by simp)
        (fun u hu => hall u (by simp [hu]))
      rw [show (sep :: (joinTokens sep (t' :: ts')).data) =
        [sep] ++ (joinTokens sep (t' :: ts')).data from rfl]
      rw [List.getLast?_append_of_ne_nil [sep] hjoin]
      rw [ih (by simp) (fun u hu => hall u (by simp [hu]))]
      rfl

theorem mem_of_head_some {α : Type} {l : List α} {a : α}
    (h : l.head? = some a) : a ∈ l := by
  cases l with
  | nil => exact Option.noConfusion h
  | cons b l =>
    have hb : b = a := by simpa using h
    simp [hb]

theorem mem_of_getLast_some {α : Type} :
    ∀ {l : List α} {a : α}, l.getLast? = some a → a ∈ l := by
  intro l
  induction l with
  | nil => intro a h; exact Option.noConfusion h
  | cons b l ih =>
    intro a h
    cases l with
    | nil =>
      have hb : b = a := by simpa using h
      simp [hb]
    | cons c l' =>
      rw [List.getLast?_cons_cons] at h
      simp [ih h]

theorem findMount_eq_none :
    ∀ (l : List String), (∀ t ∈ l, t = "" ∨ strContainsColon t = false) →
      findMount l = none := by
  intro l
  induction l with
  | nil => intro _; rfl
  | cons t ts ih =>
    intro h
    have hcond : ¬(t ≠ "" ∧ strContainsColon t = true) := by
      rintro ⟨h1, h2⟩
      rcases h t (by simp) with rfl | hf
      · exact h1 rfl
      · rw [hf] at h2; exact Bool.noConfusion h2
    simp only [findMount, if_neg hcond]
    exact ih (fun u hu => h u (by simp [hu]))

/-- Claim C6: a list-descriptor value made of separator-joined
`image:mount` tokens parses to the mount component (the part after the
last colon) of the *last* token, with empty name and view; and when the
composite branch misses and no token of the list value supplies a
colon, parsing is fatal. -/
theorem parse_uenv_list_correct :
    (∀ (sep : Char) (ts : List String) (h : ts ≠ []),
      scPred sep = true →
      (∀ t ∈ ts, goodTok t) →
      parse_uenv "" (joinTokens sep ts) =
        .ok (afterLastColon (ts.getLast h)) "" "") ∧
    (∀ (uv uml : String), compositeMiss uv →
      (∀ t ∈ reSplitSpaceComma (pyStrip uml),
        t = "" ∨ strContainsColon t = false) →
      parse_uenv uv uml = .fatal) := by
  constructor
  · intro sep ts h hsep hgood
    have hne : ∀ t ∈ ts, t.data ≠ [] := fun t ht => (hgood t ht).1
    have hclean : ∀ t ∈ ts, ∀ c ∈ t.data, scPred c = false :=
      fun t ht => goodTok_scPred (hgood t ht)
    have hjoin_ne : (joinTokens sep ts).data ≠ [] := join_ne_nil sep ts h hne
    rw [parse_uenv_fallthrough "" (joinTokens sep ts) (Or.inl rfl)]
    unfold parseFromList
    have humlne : joinTokens sep ts ≠ "" := by
      intro hh
      apply hjoin_ne
      rw [hh]
    rw [if_neg humlne]
    have hstrip : pyStrip (joinTokens sep ts) = joinTokens sep ts := by
      apply pyStrip_eq_self
      · intro c hc
        obtain ⟨t0, ts0, rfl⟩ : ∃ t0 ts0, ts = t0 :: ts0 := by
          cases ts with
          | nil => exact absurd rfl h
          | cons t0 ts0 => exact ⟨t0, ts0, rfl⟩
        rw [join_head sep t0 ts0 (hne t0 (by simp))] at hc
        exact ((hgood t0 (by simp)).2.2 c (mem_of_head_some hc)).1
      · intro c hc
        rw [join_getLast sep ts h hne] at hc
        exact ((hgood _ (List.getLast_mem h)).2.2 c (mem_of_getLast_some hc)).1
    rw [hstrip]
    unfold reSplitSpaceComma
    rw [split_join sep hsep ts h hclean]
    have hmm : ∀ us : List String, (us.map String.data).map String.mk = us := by
      intro us
      induction us with
      | nil => rfl
      | cons u us ihu => simp [mk_data, ihu]
    rw [hmm ts]
    obtain ⟨x, rest, hrev⟩ : ∃ x rest, ts.reverse = x :: rest := by
      cases hr : ts.reverse with
      | nil => rw [List.reverse_eq_nil_iff] at hr; exact absurd hr h
      | cons x rest => exact ⟨x, rest, rfl⟩
    have hx : x = ts.getLast h := by
      have hh := List.head?_reverse ts
      rw [hrev, List.getLast?_eq_getLast_of_ne_nil h] at hh
      simpa using hh
    rw [hrev]
    have hgx : goodTok x := by
      rw [hx]
      exact hgood _ (List.getLast_mem h)
    have hxne : x ≠ "" := by
      intro hh
      apply hgx.1
      rw [hh]
    simp only [findMount, if_pos (And.intro hxne hgx.2.1)]
    rw [hx]
  · intro uv uml hmiss htoks
    rw [parse_uenv_fallthrough uv uml hmiss]
    unfold parseFromList
    by_cases hE : uml = ""
    · rw [if_pos hE]
    · rw [if_neg hE]
      rw [findMount_eq_none _ (fun t ht => htoks t (List.mem_reverse.mp ht))]

theorem parse_uenv_list_correct_witness :
    parse_uenv "" (joinTokens ' ' ["img1:/m1", "img2:/m2"]) =
      .ok "/m2" "" "" := by
  have hgood : ∀ t ∈ (["img1:/m1", "img2:/m2"] : List String), goodTok t := by
    intro t ht
    fin_cases ht <;> exact ⟨by decide, by decide, by decide⟩
  have h := parse_uenv_list_correct.1 ' ' ["img1:/m1", "img2:/m2"]
    (by decide) (by decide) hgood
  rw [h]
  rfl

/-! ## View package-directory resolver (`discover_uenv_site_packages`) -/

/-- Result of `discover_uenv_site_packages`: a found directory, or the
`_err` exit whose message names the resolved canonical path. -/
inductive DiscoverResult where
  | found (p : String)
  | fatal (canonical : String)
deriving DecidableEq

/-- `mount / "env" / view_name / "lib" / f"python{pyver}" / "site-packages"`. -/
def canonicalPath (mount view ver : String) : String :=
  mount ++ "/env/" ++ view ++ "/lib/python" ++ ver ++ "/site-packages"

/-- One iteration of the scan loop: `try: pr = p.resolve() except:
continue; if pr.is_dir() and pr.as_posix().startswith(want_prefix):
return pr`. -/
def entryHit (fs : FS) (w p : String) : Option String :=
  match fs.resolve p with
  | .error _ => none
  | .ok pr => if fs.isDir pr && strBegins pr w then some pr else none

/-- The `for p in sys_path` loop of `discover_uenv_site_packages`. -/
def scanLoop (fs : FS) (w : String) : List String → Option String
  | [] => none
  | p :: rest =>
    match entryHit fs w p with
    | some pr => some pr
    | none => scanLoop fs w rest

/-- The list comprehension `[Path(p).resolve() for p in data["path"]]`:
this first resolution pass is *not* guarded by a try/except, so an
error aborts the whole call. -/
def firstPassResolve (fs : FS) : List String → Except Unit (List String)
  | [] => .ok []
  | p :: ps =>
    match fs.resolve p with
    | .error e => .error e
    | .ok pr =>
      match firstPassResolve fs ps with
      | .error e => .error e
      | .ok rest => .ok (pr :: rest)

/-- The body of `discover_uenv_site_packages` after the interpreter
probe has reported its version `ver` and search path `paths`. -/
def discover_core (fs : FS) (mount view ver : String)
    (paths : List String) : Except Unit DiscoverResult :=
  match firstPassResolve fs paths with
  | .error e => .error e
  | .ok rs =>
    match fs.resolve (canonicalPath mount view ver) with
    | .error e => .error e
    | .ok w =>
      match scanLoop fs w rs with
      | some pr => .ok (.found pr)
      | none => if fs.isDir w then .ok (.found w) else .ok (.fatal w)

/-- `discover_uenv_site_packages(mount, view_name, py)` from `cli.py`.
The interpreter probe (`subprocess.check_output` of the version /
`sys.path` snippet) is abstracted as the `probe` argument; a probe or
resolution error is an uncaught Python exception (`Except.error`). -/
def discover_uenv_site_packages (fs : FS) (mount view : String)
    (probe : Except Unit (String × List String)) :
    Except Unit DiscoverResult :=
  match probe with
  | .error e => .error e
  | .ok (ver, paths) => discover_core fs mount view ver paths

theorem scanLoop_eq_some (fs : FS) (w : String) :
    ∀ (rs : List String) (i : Nat) (hi : i < rs.length) (pr : String),
      entryHit fs w (rs.get ⟨i, hi⟩) = some pr →
      (∀ (j : Nat) (hj : j < i),
        entryHit fs w (rs.get ⟨j, Nat.lt_trans hj hi⟩) = none) →
      scanLoop fs w rs = some pr := by
  intro rs
  induction rs with
  | nil => intro i hi; exact absurd hi (Nat.not_lt_zero i)
  | cons p rest ih =>
    intro i hi pr hhit hbefore
    cases i with
    | zero =>
      show (match entryHit fs w p with
        | some pr => some pr
        | none => scanLoop fs w rest) = some pr
      rw [show entryHit fs w p = some pr from hhit]
    | succ i =>
      have h0 : entryHit fs w p = none :=
        hbefore 0 (Nat.succ_pos i)
      show (match entryHit fs w p with
        | some pr => some pr
        | none => scanLoop fs w rest) = some pr
      rw [h0]
      exact ih i (Nat.lt_of_succ_lt_succ hi) pr hhit
        (fun j hj => hbefore (j + 1) (Nat.succ_lt_succ hj))

theorem scanLoop_eq_none (fs : FS) (w : String) :
    ∀ (rs : List String),
      (∀ (i : Nat) (hi : i < rs.length),
        entryHit fs w (rs.get ⟨i, hi⟩) = none) →
      scanLoop fs w rs = none := by
  intro rs
  induction rs with
  | nil => intro _; rfl
  | cons p rest ih =>
    intro h
    have h0 : entryHit fs w p = none := h 0 (Nat.succ_pos _)
    show (match entryHit fs w p with
      | some pr => some pr
      | none => scanLoop fs w rest) = none
    rw [h0]
    exact ih (fun i hi => h (i + 1) (Nat.succ_lt_succ hi))

/-- Claim C2: given the interpreter-reported version and search-path
list (and assuming the unguarded resolutions succeed, yielding the
resolved entries `rs` and the resolved canonical path `w`), the
resolver returns the first entry whose guarded re-resolution is an
existing directory prefixed by `w`; with no such entry it returns `w`
itself when `w` is a directory, and otherwise exits fatally naming
`w`. -/
theorem discover_correct (fs : FS) (mount view ver : String)
    (paths rs : List String) (w : String)
    (hres : firstPassResolve fs paths = .ok rs)
    (hw : fs.resolve (canonicalPath mount view ver) = .ok w) :
    (∀ (i : Nat) (hi : i < rs.length) (pr : String),
      entryHit fs w (rs.get ⟨i, hi⟩) = some pr →
      (∀ (j : Nat) (hj : j < i),
        entryHit fs w (rs.get ⟨j, Nat.lt_trans hj hi⟩) = none) →
      discover_uenv_site_packages fs mount view (.ok (ver, paths)) =
        .ok (.found pr)) ∧
    ((∀ (i : Nat) (hi : i < rs.length), entryHit fs w (rs.get ⟨i, hi⟩) = none) →
      fs.isDir w = true →
      discover_uenv_site_packages fs mount view (.ok (ver, paths)) =
        .ok (.found w)) ∧
    ((∀ (i : Nat) (hi : i < rs.length), entryHit fs w (rs.get ⟨i, hi⟩) = none) →
      fs.isDir w = false →
      discover_uenv_site_packages fs mount view (.ok (ver, paths)) =
        .ok (.fatal w)) := by
  have hcore : discover_core fs mount view ver paths =
      (match scanLoop fs w rs with
        | some pr => Except.ok (DiscoverResult.found pr)
        | none =>
          if fs.isDir w then Except.ok (DiscoverResult.found w)
          else Except.ok (DiscoverResult.fatal w)) := by
    unfold discover_core
    rw [hres, hw]
  refine ⟨?_, ?_, ?_⟩
  · intro i hi pr hhit hbefore
    show discover_core fs mount view ver paths = _
    rw [hcore, scanLoop_eq_some fs w rs i hi pr hhit hbefore]
  · intro hnone hdir
    show discover_core fs mount view ver paths = _
    rw [hcore, scanLoop_eq_none fs w rs hnone, hdir]
    rfl
  · intro hnone hdir
    show discover_core fs mount view ver paths = _
    rw [hcore, scanLoop_eq_none fs w rs hnone, hdir]
    rfl

/-- The concrete filesystem of the resolver witness: every path
resolves to itself; exactly the two advertised search-path entries are
directories. -/
def fsD : FS where
  resolve := fun s => .ok s
  isDir := fun s =>
    s = "/base/env/v/lib/python3.11/site-packages" || s = "/usr/lib/python3.11"
  pathExists := fun _ => true

theorem discover_correct_witness :
    discover_uenv_site_packages fsD "/base" "v"
      (.ok ("3.11",
        ["/base/env/v/lib/python3.11/site-packages", "/usr/lib/python3.11"])) =
      .ok (.found "/base/env/v/lib/python3.11/site-packages") := by
  have h := (discover_correct fsD "/base" "v" "3.11"
    ["/base/env/v/lib/python3.11/site-packages", "/usr/lib/python3.11"]
    ["/base/env/v/lib/python3.11/site-packages", "/usr/lib/python3.11"]
    "/base/env/v/lib/python3.11/site-packages" rfl rfl).1
  exact h 0 (by decide) "/base/env/v/lib/python3.11/site-packages" rfl
    (fun j hj => absurd hj (Nat.not_lt_zero j))

/-- The concrete filesystem of the boundary counterexample: every path
resolves to itself; only the sibling directory
`.../site-packages-extra` exists as a directory. -/
def fsX : FS where
  resolve := fun s => .ok s
  isDir := fun s => s = "/m/env/v/lib/python3.11/site-packages-extra"
  pathExists := fun _ => true

/-- Claim C10: the membership test of the resolver is a plain string-prefix
comparison without a separator boundary: a sibling directory whose
resolved path strictly extends the canonical site-packages string with
no separator in between is accepted and returned, while `py_in_uenv`
(which appends a trailing `/` before comparing) rejects the analogous
pair. -/
theorem resolver_no_separator_boundary :
    discover_uenv_site_packages fsX "/m" "v"
      (.ok ("3.11", ["/m/env/v/lib/python3.11/site-packages-extra"])) =
      .ok (.found "/m/env/v/lib/python3.11/site-packages-extra") ∧
    strBegins "/m/env/v/lib/python3.11/site-packages-extra"
      "/m/env/v/lib/python3.11/site-packages" = true ∧
    py_in_uenv fsX "/m/env/v/lib/python3.11/site-packages-extra"
      "/m/env/v/lib/python3.11/site-packages" = false := by
  refine ⟨?_, ?_, ?_⟩ <;> rfl

/-! ## Venv creator, bootstrap and `main` -/

/-- The external commands invoked (mutating subprocess calls). -/
inductive Cmd where
  | ensurepip
  | uvPipUpgrade
  | pipUpgrade
  | uvVenvCreate (copies : Bool)
  | stdlibVenvCreate (copies : Bool)
deriving DecidableEq

/-- Filesystem mutations and mutating subprocess invocations, in
program order. -/
inductive Event where
  | rmtree
  | mkdir
  | proc (c : Cmd)
  | writeFile (path content : String)
deriving DecidableEq

/-- How the process ends: `sys.exit(code)`, normal return from `main`,
or an uncaught Python exception. -/
inductive Outcome where
  | abort (code : Nat)
  | success
  | uncaught
deriving DecidableEq

/-- The ambient state `main` runs in: the two descriptor variables,
`PYTHONPATH` (`none` when unset), the command-line arguments, the
target directory state, the filesystem, and the outcomes of the
external probes and commands. -/
structure World where
  uvVar : String
  umlVar : String
  pythonpath : Option String
  pythonArg : String
  force : Bool
  copies : Bool
  venvExists : Bool
  venvNonEmpty : Bool
  fs : FS
  probe : Except Unit (String × List String)
  venvSp : Except Unit String
  uvFound : Bool
  cmdOk : Cmd → Bool

/-- `upgrade_bootstrap(venv_python, env)`: the `ensurepip` call is
wrapped in try/except (best effort); the upgrade call uses `uv pip`
when `uv` is on PATH, else `python -m pip`, and its failure
propagates. -/
def upgrade_bootstrap (w : World) : List Event × Except Unit Unit :=
  if w.uvFound then
    ([.proc .ensurepip, .proc .uvPipUpgrade],
      if w.cmdOk .uvPipUpgrade then .ok () else .error ())
  else
    ([.proc .ensurepip, .proc .pipUpgrade],
      if w.cmdOk .pipUpgrade then .ok () else .error ())

/-- `create_with_uv(target, py, copies, env)`: raises
`FileNotFoundError` when `uv` is absent; otherwise runs
`uv venv ... --seed` and then `upgrade_bootstrap`. -/
def create_with_uv (w : World) : List Event × Except Unit Unit :=
  if w.uvFound then
    if w.cmdOk (.uvVenvCreate w.copies) then
      match upgrade_bootstrap w with
      | (l, r) => (.proc (.uvVenvCreate w.copies) :: l, r)
    else ([.proc (.uvVenvCreate w.copies)], .error ())
  else ([], .error ())

/-- `create_with_stdlib(target, py, copies, env)`: runs
`python -m venv ...` and then `upgrade_bootstrap`; any failure
propagates. -/
def create_with_stdlib (w : World) : List Event × Except Unit Unit :=
  if w.cmdOk (.stdlibVenvCreate w.copies) then
    match upgrade_bootstrap w with
    | (l, r) => (.proc (.stdlibVenvCreate w.copies) :: l, r)
  else ([.proc (.stdlibVenvCreate w.copies)], .error ())

/-- The `try: create_with_uv(...) except Exception:
create_with_stdlib(...)` block of `main`; the returned string is the
`used` tag. -/
def createVenv (w : World) : List Event × Except Unit String :=
  match create_with_uv w with
  | (l, .ok _) => (l, .ok "uv")
  | (l, .error _) =>
    match create_with_stdlib w with
    | (l2, .ok _) => (l ++ l2, .ok "venv")
    | (l2, .error e) => (l ++ l2, .error e)

/-- The name of the path-injection file written by the linker. -/
def pthName (vsp : String) : String := vsp ++ "/uenv.pth"

/-- Its content: `str(uenv_sp) + "\n"`. -/
def pthContent (sp : String) : String := sp ++ "\n"

/-- The effect of the linker on a file store (`pth.write_text(...)`):
creates or overwrites the path-injection file, leaving every other
file unchanged. -/
def write_pth (files : String → Option String) (vsp sp : String) :
    String → Option String :=
  fun f => if f = pthName vsp then some (pthContent sp) else files f

/-- The tail of `main` from the "Prepare venv dir" comment on:
optional `rmtree`, the emptiness check, `mkdir`, venv creation, the
venv site-packages probe, and the `uenv.pth` write. -/
def mainRest (w : World) (uenv_sp : String) : List Event × Outcome :=
  let pre :=
    if w.force && w.venvExists then ([Event.rmtree], false, false)
    else (([] : List Event), w.venvExists, w.venvNonEmpty)
  match pre with
  | (l1, existsNow, nonEmptyNow) =>
    if existsNow && nonEmptyNow then (l1, .abort 2)
    else
      match createVenv w with
      | (lc, .error _) => (l1 ++ [Event.mkdir] ++ lc, .uncaught)
      | (lc, .ok _) =>
        match w.venvSp with
        | .error _ => (l1 ++ [Event.mkdir] ++ lc, .uncaught)
        | .ok vsp =>
          (l1 ++ [Event.mkdir] ++ lc ++
            [Event.writeFile (pthName vsp) (pthContent uenv_sp)], .success)

/-- `main()` from `cli.py` as a function of the ambient `World`,
returning the mutation log and the process outcome.  Stages in program
order: `parse_uenv`, the name / mount / view gates, interpreter
resolution and existence, `py_in_uenv`, `discover_uenv_site_packages`,
the `is_dir` re-check, `ensure_no_pythonpath` (note: `if pp:` is
false for an *empty* `PYTHONPATH`), then `mainRest`. -/
def mainFn (w : World) : List Event × Outcome :=
  match parse_uenv w.uvVar w.umlVar with
  | .fatal => ([], .abort 2)
  | .ok mount name view =>
    if name = "" then ([], .abort 2)
    else if !(w.fs.isDir mount) then ([], .abort 2)
    else if view = "" then ([], .abort 2)
    else
      match w.fs.resolve w.pythonArg with
      | .error _ => ([], .uncaught)
      | .ok py =>
        if !(w.fs.pathExists py) then ([], .abort 2)
        else if !(py_in_uenv w.fs py mount) then ([], .abort 2)
        else
          match discover_uenv_site_packages w.fs mount view w.probe with
          | .error _ => ([], .uncaught)
          | .ok (.fatal _) => ([], .abort 2)
          | .ok (.found sp) =>
            if !(w.fs.isDir sp) then ([], .abort 2)
            else
              match w.pythonpath with
              | some pp => if pp ≠ "" then ([], .abort 2) else mainRest w sp
              | none => mainRest w sp

/-- Claim C9: the linker writes `uenv.pth` inside the package
directory of the venv with content exactly the view package directory path followed
by a newline, and writing twice with the same input is idempotent
(byte-identical file store). -/
theorem write_pth_correct (files : String → Option String) (vsp sp : String) :
    write_pth files vsp sp (pthName vsp) = some (sp ++ "\n") ∧
    write_pth (write_pth files vsp sp) vsp sp = write_pth files vsp sp := by
  constructor
  · simp [write_pth, pthContent]
  · funext f
    by_cases hf : f = pthName vsp <;> simp [write_pth, hf]

theorem create_with_stdlib_head (w : World) :
    ∃ tl, (create_with_stdlib w).1 =
      Event.proc (.stdlibVenvCreate w.copies) :: tl := by
  by_cases h : w.cmdOk (.stdlibVenvCreate w.copies)
  · exact ⟨(upgrade_bootstrap w).1, by simp [create_with_stdlib, h]⟩
  · exact ⟨[], by simp [create_with_stdlib, h]⟩

theorem createVenv_fallsback (w : World)
    (hcu : (create_with_uv w).2 = .error ()) :
    Event.proc (.stdlibVenvCreate w.copies) ∈ (createVenv w).1 := by
  obtain ⟨tl, htl⟩ := create_with_stdlib_head w
  rcases hcu2 : create_with_uv w with ⟨l, r⟩
  rw [hcu2] at hcu
  simp only at hcu
  subst hcu
  unfold createVenv
  rw [hcu2]
  rcases hcs : create_with_stdlib w with ⟨l2, r2⟩
  rw [hcs] at htl
  simp only at htl
  subst htl
  cases r2 <;> simp

theorem create_with_uv_no_stdlib (w : World) :
    Event.proc (.stdlibVenvCreate w.copies) ∉ (create_with_uv w).1 := by
  unfold create_with_uv upgrade_bootstrap
  by_cases h1 : w.uvFound <;>
    by_cases h2 : w.cmdOk (.uvVenvCreate w.copies) <;>
      by_cases h3 : w.cmdOk Cmd.uvPipUpgrade <;>
        simp [h1, h2, h3]

theorem create_with_stdlib_count (w : World) :
    (create_with_stdlib w).1.count
      (Event.proc (.stdlibVenvCreate w.copies)) = 1 := by
  unfold create_with_stdlib upgrade_bootstrap
  by_cases h1 : w.cmdOk (.stdlibVenvCreate w.copies) <;>
    by_cases h2 : w.uvFound <;>
      simp [h1, h2, List.count_cons]

/-- Claim C3 (amended): in `main`, the whole of `create_with_uv` —
including its post-creation `upgrade_bootstrap` — runs inside the
`try`, so *any* of its failures (uv absent, `uv venv` failing, or the
bootstrap upgrade failing) is non-fatal and triggers
`create_with_stdlib`; after the stdlib attempt a bootstrap-upgrade
failure is fatal with no further fallback (the stdlib creation command
runs exactly once). -/
theorem createVenv_fallback_correct (w : World) :
    ((create_with_uv w).2 = .error () →
      Event.proc (.stdlibVenvCreate w.copies) ∈ (createVenv w).1) ∧
    (w.uvFound = true → w.cmdOk (.uvVenvCreate w.copies) = true →
      (upgrade_bootstrap w).2 = .error () →
      Event.proc (.stdlibVenvCreate w.copies) ∈ (createVenv w).1) ∧
    ((create_with_uv w).2 = .error () → (create_with_stdlib w).2 = .error () →
      (createVenv w).2 = .error () ∧
      (createVenv w).1.count (Event.proc (.stdlibVenvCreate w.copies)) = 1) := by
  refine ⟨createVenv_fallsback w, ?_, ?_⟩
  · intro h1 h2 h3
    apply createVenv_fallsback w
    unfold create_with_uv
    rw [h1, h2]
    simp [h3]
  · intro hcu hcs
    rcases hcu2 : create_with_uv w with ⟨l, r⟩
    rw [hcu2] at hcu
    simp only at hcu
    subst hcu
    rcases hcs2 : create_with_stdlib w with ⟨l2, r2⟩
    rw [hcs2] at hcs
    simp only at hcs
    subst hcs
    have hr : createVenv w = (l ++ l2, .error ()) := by
      unfold createVenv
      rw [hcu2, hcs2]
    rw [hr]
    refine ⟨rfl, ?_⟩
    have hnot := create_with_uv_no_stdlib w
    rw [hcu2] at hnot
    simp only at hnot
    have hcnt := create_with_stdlib_count w
    rw [hcs2] at hcnt
    simp only at hcnt
    simp [List.count_append, List.count_eq_zero.mpr hnot, hcnt]

/-- The world of the C3 counterexample: `uv` exists, `uv venv`
succeeds, the bootstrap upgrade fails, stdlib creation succeeds. -/
def w3 : World where
  uvVar := "/mnt:base:dev"
  umlVar := ""
  pythonpath := none
  pythonArg := "/mnt/env/dev/bin/python"
  force := false
  copies := false
  venvExists := false
  venvNonEmpty := false
  fs := fsW
  probe := .ok ("3.11", [])
  venvSp := .ok "/v/sp"
  uvFound := true
  cmdOk := fun c =>
    match c with
    | .uvPipUpgrade => false
    | _ => true

/-- Counterexample to claim C3 as stated: the fast creation method
itself succeeds (`uv` found, `uv venv` ok), the bootstrap upgrade step
fails, and the stdlib method *is* attempted anyway, because `main`
catches the exception of `create_with_uv` as a whole. -/
theorem create_bootstrap_fallback_cex :
    w3.uvFound = true ∧
    w3.cmdOk (.uvVenvCreate w3.copies) = true ∧
    w3.cmdOk .uvPipUpgrade = false ∧
    Event.proc (.stdlibVenvCreate w3.copies) ∈ (createVenv w3).1 := by
  refine ⟨rfl, rfl, rfl, ?_⟩
  decide

theorem createVenv_fallback_correct_witness :
    Event.proc (.stdlibVenvCreate w3.copies) ∈ (createVenv w3).1 :=
  (createVenv_fallback_correct w3).2.1 rfl rfl rfl

theorem mainFn_eq_mainRest (w : World) (m n v sp py : String)
    (hp : parse_uenv w.uvVar w.umlVar = .ok m n v)
    (hn : n ≠ "") (hm : w.fs.isDir m = true) (hv : v ≠ "")
    (hres : w.fs.resolve w.pythonArg = .ok py)
    (hex : w.fs.pathExists py = true)
    (hin : py_in_uenv w.fs py m = true)
    (hd : discover_uenv_site_packages w.fs m v w.probe = .ok (.found sp))
    (hsd : w.fs.isDir sp = true)
    (hpp : w.pythonpath = none ∨ w.pythonpath = some "") :
    mainFn w = mainRest w sp := by
  rcases hpp with hpp | hpp <;>
    simp [mainFn, hp, hn, hm, hv, hres, hex, hin, hd, hsd, hpp]

theorem mainFn_pythonpath_abort (w : World) (m n v sp py pp : String)
    (hp : parse_uenv w.uvVar w.umlVar = .ok m n v)
    (hn : n ≠ "") (hm : w.fs.isDir m = true) (hv : v ≠ "")
    (hres : w.fs.resolve w.pythonArg = .ok py)
    (hex : w.fs.pathExists py = true)
    (hin : py_in_uenv w.fs py m = true)
    (hd : discover_uenv_site_packages w.fs m v w.probe = .ok (.found sp))
    (hsd : w.fs.isDir sp = true)
    (hpp : w.pythonpath = some pp) (hppne : pp ≠ "") :
    mainFn w = ([], .abort 2) := by
  simp [mainFn, hp, hn, hm, hv, hres, hex, hin, hd, hsd, hpp, hppne]

theorem pythonpath_nonempty_blocks (w : World) (pp : String)
    (hpp : w.pythonpath = some pp) (hne : pp ≠ "") :
    (mainFn w).1 = [] ∧ (mainFn w).2 ≠ .success := by
  unfold mainFn
  repeat' split
  all_goals first
    | exact ⟨rfl, by simp⟩
    | simp_all

/-- Claim C4 (amended): `ensure_no_pythonpath` tests `if pp:`, so the
fatal precondition is `PYTHONPATH` being present *with a non-empty
value*; in that case no filesystem mutation ever happens and the run
cannot succeed, and when all earlier discovery/validation gates pass
the run aborts with exit code 2 at the `PYTHONPATH` check.  A present
but empty `PYTHONPATH` does not abort. -/
theorem pythonpath_guard_correct :
    (∀ (w : World) (pp : String), w.pythonpath = some pp → pp ≠ "" →
      (mainFn w).1 = [] ∧ (mainFn w).2 ≠ .success) ∧
    (∀ (w : World) (m n v sp py pp : String),
      parse_uenv w.uvVar w.umlVar = .ok m n v → n ≠ "" →
      w.fs.isDir m = true → v ≠ "" →
      w.fs.resolve w.pythonArg = .ok py → w.fs.pathExists py = true →
      py_in_uenv w.fs py m = true →
      discover_uenv_site_packages w.fs m v w.probe = .ok (.found sp) →
      w.fs.isDir sp = true →
      w.pythonpath = some pp → pp ≠ "" →
      mainFn w = ([], .abort 2)) := by
  constructor
  · exact pythonpath_nonempty_blocks
  · intro w m n v sp py pp hp hn hm hv hres hex hin hd hsd hpp hppne
    exact mainFn_pythonpath_abort w m n v sp py pp hp hn hm hv hres hex hin
      hd hsd hpp hppne

/-- The filesystem of the end-to-end worlds: everything resolves to
itself, everything exists and is a directory. -/
def fs4 : FS where
  resolve := fun s => .ok s
  isDir := fun _ => true
  pathExists := fun _ => true

/-- A world in which every stage succeeds but `PYTHONPATH` is present
with an empty value. -/
def w4 : World where
  uvVar := "/mnt:base:dev"
  umlVar := ""
  pythonpath := some ""
  pythonArg := "/mnt/env/dev/bin/python"
  force := false
  copies := false
  venvExists := false
  venvNonEmpty := false
  fs := fs4
  probe := .ok ("3.11", [])
  venvSp := .ok "/venv/lib/python3.11/site-packages"
  uvFound := true
  cmdOk := fun _ => true

/-- Counterexample to claim C4 as stated: `PYTHONPATH` is present in
the environment (with value `""`), yet the run does not abort — it
runs to completion, mutating the filesystem. -/
theorem pythonpath_presence_cex :
    w4.pythonpath = some "" ∧
    (mainFn w4).2 = .success ∧
    (mainFn w4).1 ≠ [] := by
  refine ⟨rfl, ?_, ?_⟩ <;> decide

/-- The same world with a non-empty `PYTHONPATH`. -/
def w4b : World := { w4 with pythonpath := some "/stray" }

theorem pythonpath_guard_correct_witness :
    mainFn w4b = ([], .abort 2) :=
  pythonpath_guard_correct.2 w4b "/mnt" "base" "dev"
    "/mnt/env/dev/lib/python3.11/site-packages" "/mnt/env/dev/bin/python"
    "/stray" rfl (by decide) rfl (by decide) rfl rfl rfl rfl rfl rfl
    (by decide)

/-- Claim C7: when the base environment is discovered through the
`UENV_MOUNT_LIST` fallback (the composite branch missed), the parsed
name is empty and `main` aborts with exit code 2 at the name gate,
before any filesystem mutation — that discovery branch can never lead
to a successful run. -/
theorem list_fallback_never_succeeds (w : World) (m n v : String)
    (hmiss : compositeMiss w.uvVar)
    (hp : parse_uenv w.uvVar w.umlVar = .ok m n v) :
    n = "" ∧ mainFn w = ([], .abort 2) := by
  have hfall := parse_uenv_fallthrough w.uvVar w.umlVar hmiss
  rw [hfall] at hp
  have hn : n = "" := by
    unfold parseFromList at hp
    by_cases hE : w.umlVar = ""
    · rw [if_pos hE] at hp
      exact ParseResult.noConfusion hp
    · rw [if_neg hE] at hp
      cases hfm : findMount (reSplitSpaceComma (pyStrip w.umlVar)).reverse with
      | none => rw [hfm] at hp; exact ParseResult.noConfusion hp
      | some mm =>
        rw [hfm] at hp
        injection hp with h1 h2 h3
        exact h2.symm
  refine ⟨hn, ?_⟩
  have hp2 : parse_uenv w.uvVar w.umlVar = .ok m n v := by rw [hfall]; exact hp
  simp [mainFn, hp2, hn]

/-- A world whose composite descriptor is absent and whose mount-list
descriptor is well-formed. -/
def w7 : World := { w4 with uvVar := "", umlVar := "img:/mnt", pythonpath := none }

theorem list_fallback_never_succeeds_witness :
    mainFn w7 = ([], .abort 2) :=
  (list_fallback_never_succeeds w7 "/mnt" "" "" (Or.inl rfl) rfl).2

/-- Claim C8: with all discovery gates passed, a non-empty existing
target without `--force` aborts with exit code 2 leaving the target
untouched (no mutation event); with `--force` and an existing target,
the target is removed (`rmtree`) first and creation proceeds
(`mkdir` and the creation events follow). -/
theorem venv_target_guard (w : World) (m n v sp py : String)
    (hp : parse_uenv w.uvVar w.umlVar = .ok m n v)
    (hn : n ≠ "") (hm : w.fs.isDir m = true) (hv : v ≠ "")
    (hres : w.fs.resolve w.pythonArg = .ok py)
    (hex : w.fs.pathExists py = true)
    (hin : py_in_uenv w.fs py m = true)
    (hd : discover_uenv_site_packages w.fs m v w.probe = .ok (.found sp))
    (hsd : w.fs.isDir sp = true)
    (hpp : w.pythonpath = none ∨ w.pythonpath = some "") :
    (w.force = false → w.venvExists = true → w.venvNonEmpty = true →
      mainFn w = ([], .abort 2)) ∧
    (w.force = true → w.venvExists = true →
      ∃ rest, (mainFn w).1 = Event.rmtree :: Event.mkdir :: rest) := by
  have hmain := mainFn_eq_mainRest w m n v sp py hp hn hm hv hres hex hin
    hd hsd hpp
  constructor
  · intro hf he hne
    rw [hmain]
    simp [mainRest, hf, he, hne]
  · intro hf he
    rw [hmain]
    unfold mainRest
    rcases hcv : createVenv w with ⟨lc, r⟩
    cases r with
    | error e =>
      simp [hf, he, hcv]
    | ok used =>
      cases hvs : w.venvSp with
      | error e2 => simp [hf, he, hcv, hvs]
      | ok vsp => simp [hf, he, hcv, hvs]

/-- A world whose target directory already exists non-empty and whose
`--force` flag is absent. -/
def w8 : World :=
  { w4 with pythonpath := none, venvExists := true, venvNonEmpty := true }

theorem venv_target_guard_witness :
    mainFn w8 = ([], .abort 2) :=
  (venv_target_guard w8 "/mnt" "base" "dev"
    "/mnt/env/dev/lib/python3.11/site-packages" "/mnt/env/dev/bin/python"
    rfl (by decide) rfl (by decide) rfl rfl rfl rfl rfl (Or.inl rfl)).1
    rfl rfl rfl
